import Mathlib

/-
Verification of the Morpheus-script language server core (validator,
formatter, external-checker report parser) against its specification.
Lines of text are modelled as `List Char`; a document is a `List (List Char)`.
JavaScript string operations (trim, split, indexOf, regular-expression
tests) are reimplemented on `List Char` with ASCII whitespace semantics.
-/

/-- Characters treated as whitespace (models the ASCII part of the
JavaScript whitespace class used by trim, trimStart and the regex \s). -/
def isWS (c : Char) : Bool :=
  c = ' ' || c = '\t' || c = '\r' || c = '\n' || c = '\x0b' || c = '\x0c'

/-- Convert a Lean string literal to the `List Char` line model. -/
def strT (s : String) : List Char := s.data

/-- JavaScript `String.prototype.trimStart`. -/
def jsTrimStart (l : List Char) : List Char := l.dropWhile isWS

/-- JavaScript `String.prototype.trimEnd`. -/
def jsTrimEnd (l : List Char) : List Char := (l.reverse.dropWhile isWS).reverse

/-- JavaScript `String.prototype.trim`. -/
def jsTrim (l : List Char) : List Char := jsTrimEnd (jsTrimStart l)

/-- Index of the first occurrence of `sub` in `l` (JavaScript `indexOf`,
as an `Option` instead of the -1 sentinel). -/
def idxOfSub (sub : List Char) : List Char → Option Nat
  | [] => if sub.isEmpty then some 0 else none
  | c :: rest =>
    if sub.isPrefixOf (c :: rest) then some 0
    else (idxOfSub sub rest).map (· + 1)

/-- JavaScript `String.prototype.includes`. -/
def containsSub (sub l : List Char) : Bool := (idxOfSub sub l).isSome

/-- JavaScript `indexOf` with the -1 sentinel, used where the source stores
the result directly in a diagnostic range. -/
def jsIndexOf (sub l : List Char) : Int :=
  match idxOfSub sub l with
  | some k => (k : Int)
  | none => -1

/-- Character is in the regex class [a-zA-Z0-9_]. -/
def isWordChar (c : Char) : Bool := c.isAlpha || c.isDigit || c = '_'

/-- Character is in the regex class [a-zA-Z_]. -/
def isIdentStart (c : Char) : Bool := c.isAlpha || c = '_'

/-- Full-string match of /^[a-zA-Z_][a-zA-Z0-9_]*$/. -/
def matchesIdent (l : List Char) : Bool :=
  match l with
  | [] => false
  | c :: rest => isIdentStart c && rest.all isWordChar

/-- ASCII lower-casing of a line (JavaScript `toLowerCase`). -/
def toLowerL (l : List Char) : List Char := l.map Char.toLower

/-- All characters are whitespace. -/
def allWS (l : List Char) : Bool := l.all isWS

/-- No line-terminator characters: the regex "." matches any character
except a line terminator. -/
def noNL (l : List Char) : Bool := l.all (fun c => c ≠ '\n' && c ≠ '\r')

/-- Decimal rendering of a natural number (JavaScript number-to-string
interpolation for the non-negative integers that occur here). -/
def natDec (n : Nat) : List Char := (Nat.repr n).data

/-- The list n, n-1, ..., 1, 0: the order in which a greedy regex
quantifier tries how much input to consume. -/
def descRange (n : Nat) : List Nat := (List.range (n + 1)).reverse

/-- Split a text on /\r?\n/ (how both analyzers split the document). -/
def splitLinesAux : List Char → List Char → List (List Char)
  | [], acc => [acc.reverse]
  | c :: rest, acc =>
    if c = '\n' then
      (match acc with
       | '\r' :: acc2 => acc2.reverse
       | _ => acc.reverse) :: splitLinesAux rest []
    else splitLinesAux rest (c :: acc)

/-- Split a text on /\r?\n/. -/
def splitLinesCR (l : List Char) : List (List Char) := splitLinesAux l []

/-- Split a text on a bare newline (JavaScript `split('\n')`, used on the
external checker's output). -/
def splitNLAux : List Char → List Char → List (List Char)
  | [], acc => [acc.reverse]
  | c :: rest, acc =>
    if c = '\n' then acc.reverse :: splitNLAux rest []
    else splitNLAux rest (c :: acc)

/-- Split a text on a bare newline. -/
def splitNL (l : List Char) : List (List Char) := splitNLAux l []

/-- Split on runs of whitespace (JavaScript `split(/\s+/)`): a run of
whitespace is one separator; the flag records whether the previous
character was part of a whitespace run. -/
def splitWSAux : List Char → List Char → Bool → List (List Char)
  | [], acc, _ => [acc.reverse]
  | c :: rest, acc, prevWS =>
    if isWS c then
      if prevWS then splitWSAux rest acc true
      else acc.reverse :: splitWSAux rest [] true
    else splitWSAux rest (c :: acc) false

/-- Split on runs of whitespace. -/
def splitWS (l : List Char) : List (List Char) := splitWSAux l [] false

/-
Diagnostic model (the subset of the LSP types the source constructs).
Character positions are `Int` because the source stores raw `indexOf`
results, whose JavaScript sentinel is -1.
-/

/-- LSP diagnostic severity as used by the source (Error or Warning). -/
inductive Severity where
  | error
  | warning
deriving DecidableEq, Repr

/-- An LSP range: start and end line/character. -/
structure Rng where
  startLine : Int
  startChar : Int
  endLine : Int
  endChar : Int
deriving DecidableEq, Repr

/-- A diagnostic as constructed by the source (related-information is
omitted: the validator is modelled at its default arguments
`documentUri = undefined`, `hasDiagnosticRelatedInfo = false`, under which
the related-information branch is never taken). -/
structure Diag where
  severity : Severity
  range : Rng
  message : List Char
  source : List Char
deriving DecidableEq, Repr

/-- A recorded thread/waitthread/exec call site. -/
structure ThreadCall where
  label : List Char
  line : Nat
  char : Int
deriving DecidableEq, Repr

/-
Validator embedding (src/unnamed/part_002, `validateText`).
-/

/-- CONTROL_KEYWORDS from the source. -/
def CONTROL_KEYWORDS : List (List Char) :=
  [strT "if", strT "else", strT "while", strT "for", strT "switch", strT "case",
   strT "break", strT "continue", strT "goto", strT "return",
   strT "try", strT "catch"]

/-- THREAD_KEYWORDS from the source. -/
def THREAD_KEYWORDS : List (List Char) :=
  [strT "thread", strT "waitthread", strT "wait", strT "waitframe", strT "waittill", strT "waitexec",
   strT "end", strT "End", strT "END",
   strT "exec", strT "exec_server"]

/-- SCOPE_KEYWORDS from the source. -/
def SCOPE_KEYWORDS : List (List Char) :=
  [strT "local", strT "level", strT "game", strT "parm", strT "group", strT "self", strT "owner"]

/-- BUILTIN_COMMANDS from the source. -/
def BUILTIN_COMMANDS : List (List Char) :=
  [strT "spawn", strT "delete", strT "trigger",
   strT "print", strT "println", strT "iprintln", strT "iprintlnbold", strT "dprintln",
   strT "makearray", strT "makeArray", strT "endarray", strT "endArray",
   strT "size"]

/-- CONSTANTS from the source. -/
def CONSTANTS : List (List Char) :=
  [strT "NULL", strT "NIL", strT "true", strT "false"]

/-- KEYWORDS: all keyword categories combined, in source order. -/
def KEYWORDS : List (List Char) :=
  CONTROL_KEYWORDS ++ THREAD_KEYWORDS ++ SCOPE_KEYWORDS ++ BUILTIN_COMMANDS ++ CONSTANTS

/-- Case-insensitive lookup of a word among the command-table keys
(`Object.keys(commands).some(cmd => cmd.toLowerCase() === lowerWord)`).
The command table is modelled by its list of keys: the validator only
ever consults the keys. -/
def isCommandName (cmds : List (List Char)) (w : List Char) : Bool :=
  cmds.any (fun k => toLowerL k = toLowerL w)

/-- Case-insensitive lookup of a word in KEYWORDS. -/
def isKeywordName (w : List Char) : Bool :=
  KEYWORDS.any (fun k => toLowerL k = toLowerL w)

/-- State threaded through the validator's scan pass. -/
structure ScanState where
  bracketBalance : Int
  parenBalance : Int
  squareBalance : Int
  definedLabels : List (List Char)
  threadCalls : List ThreadCall
  inBlockComment : Bool
deriving DecidableEq, Repr

/-- Initial scan state. -/
def initScan : ScanState := ⟨0, 0, 0, [], [], false⟩

/-- JavaScript `Set.add`: append if not already present (insertion order
is kept, duplicates are not). -/
def addLabel (s : List (List Char)) (x : List Char) : List (List Char) :=
  if s.contains x then s else s ++ [x]

/-- Block-comment handling and blank/line-comment skipping at the head of
the validator's per-line scan: given the carried `inBlockComment` flag and
the raw line, produce the new flag and the effective trimmed line
(`none` when the source does `continue` before any check runs). -/
def lineEffect (inBC : Bool) (line : List Char) : Bool × Option (List Char) :=
  let t := jsTrim line
  let step1 : Bool × Option (List Char) :=
    if inBC then
      match idxOfSub (strT "*/") t with
      | some k => (false, some (jsTrim (t.drop (k + 2))))
      | none => (true, none)
    else (false, some t)
  match step1 with
  | (bc1, none) => (bc1, none)
  | (bc1, some t1) =>
    let step2 : Bool × Option (List Char) :=
      if (strT "/*").isPrefixOf t1 then
        match idxOfSub (strT "*/") t1 with
        | none => (true, none)
        | some k => (bc1, some (jsTrim (t1.drop (k + 2))))
      else (bc1, some t1)
    match step2 with
    | (bc2, none) => (bc2, none)
    | (bc2, some t2) =>
      if t2.isEmpty || (strT "//").isPrefixOf t2 then (bc2, none) else (bc2, some t2)

/-- Comment-stripped content used for label detection: everything before
the first `//`, trimmed (`content.substring(0, content.indexOf('//')).trim()`). -/
def stripLC (t : List Char) : List Char :=
  match idxOfSub (strT "//") t with
  | some k => jsTrim (t.take k)
  | none => t

/-- Label extraction from the comment-stripped content: the content must
end in `:` but not `::`, and `match(/^([a-zA-Z0-9_]+)/)` must succeed; the
recorded name is the leading run of word characters. -/
def labelExtract (content : List Char) : Option (List Char) :=
  if (strT ":").isSuffixOf content ∧ ¬ (strT "::").isSuffixOf content then
    match content with
    | c :: _ => if isWordChar c then some (content.takeWhile isWordChar) else none
    | [] => none
  else none

/-- Test of /^case\s+(.+):$/ on the content: `case`, at least one
whitespace character, a non-empty non-newline group, and a final colon. -/
def matchesCaseLabel (content : List Char) : Bool :=
  (strT "case").isPrefixOf content &&
  (let r := content.drop 4
   (List.range r.length).any (fun k =>
     1 ≤ k && allWS (r.take k) &&
     (let m := r.drop k
      2 ≤ m.length && m.getLast? = some ':' && noNL m.dropLast)))

/-- Strip one trailing `;` or `,` (JavaScript `replace(/[;,]$/, '')`). -/
def stripTrailingPunct (l : List Char) : List Char :=
  match l.getLast? with
  | some ';' => l.dropLast
  | some ',' => l.dropLast
  | _ => l

/-- Thread-call collection over the whitespace-split words of the trimmed
line: for each word that lower-cases to `thread`, `waitthread` or `exec`
and has a successor, the successor is a candidate target; targets with a
scope qualifier, variable sigil, opening paren or `.scr` suffix are
ignored, the rest are stripped of one trailing `;`/`,` and recorded when
they match the identifier pattern.  The recorded column is the raw line's
`indexOf` of the cleaned target. -/
def collectCallsAux (i : Nat) (line : List Char) : List (List Char) → List ThreadCall
  | w :: target :: rest =>
    (if (toLowerL w = strT "thread" ∨ toLowerL w = strT "waitthread" ∨ toLowerL w = strT "exec") then
       if ¬ containsSub (strT "::") target ∧ ¬ (strT "$").isPrefixOf target ∧
          ¬ (strT "(").isPrefixOf target ∧ ¬ (strT ".scr").isSuffixOf target then
         let clean := stripTrailingPunct target
         if matchesIdent clean then [⟨clean, i, jsIndexOf clean line⟩] else []
       else []
     else []) ++ collectCallsAux i line (target :: rest)
  | _ => []

/-- Thread-call collection for one line. -/
def collectCalls (i : Nat) (line trimmedLine : List Char) : List ThreadCall :=
  collectCallsAux i line (splitWS trimmedLine)

/-- Leading whitespace length (how much a greedy \s* consumes). -/
def leadWS (l : List Char) : Nat := (l.takeWhile isWS).length

/-- Final step of /^(if|while)\s*\(?\s*([^)]+)/: a maximal non-empty run
of characters other than `)`. -/
def condTailD (r : List Char) : Option (List Char) :=
  let run := r.takeWhile (fun c => c ≠ ')')
  if run.isEmpty then none else some run

/-- Second \s* of the condition regex, greedy with backtracking. -/
def condTailC (r : List Char) : Option (List Char) :=
  (descRange (leadWS r)).findSome? (fun c => condTailD (r.drop c))

/-- Optional opening paren of the condition regex (greedy: taken first). -/
def condTailB (r : List Char) : Option (List Char) :=
  if r.head? = some '(' then
    match condTailC (r.drop 1) with
    | some x => some x
    | none => condTailC r
  else condTailC r

/-- First \s* of the condition regex, greedy with backtracking. -/
def condTailA (r : List Char) : Option (List Char) :=
  (descRange (leadWS r)).findSome? (fun a => condTailB (r.drop a))

/-- Group 2 of `trimmedLine.match(/^(if|while)\s*\(?\s*([^)]+)/i)`: the
condition expression, when the anchored case-insensitive match succeeds.
A string cannot start with both `if` and `while`, so the alternation
needs no cross-branch backtracking. -/
def condExtract (t : List Char) : Option (List Char) :=
  let low := toLowerL t
  if (strT "if").isPrefixOf low then condTailA (t.drop 2)
  else if (strT "while").isPrefixOf low then condTailA (t.drop 5)
  else none

/-- Test of /[^=!<>]=[^=]/ on the condition: somewhere a `=` whose left
neighbour is none of `=` `!` `<` `>` and whose right neighbour is not `=`. -/
def hasAssignEq : List Char → Bool
  | a :: b :: c :: rest =>
    (¬ (a = '=' ∨ a = '!' ∨ a = '<' ∨ a = '>') ∧ b = '=' ∧ c ≠ '=' : Bool) ||
    hasAssignEq (b :: c :: rest)
  | _ => false

/-- Leading identifier of the trimmed line
(`match(/^([a-zA-Z_][a-zA-Z0-9_]*)/)`). -/
def firstWordOf (t : List Char) : Option (List Char) :=
  match t with
  | c :: rest => if isIdentStart c then some (c :: rest.takeWhile isWordChar) else none
  | [] => none

/-- Message of the odd-quote-count warning. -/
def quoteMsg : List Char :=
  strT "Line has an odd number of quotes. Check for unclosed strings."

/-- Message of the assignment-in-condition warning. -/
def assignCondMsg : List Char :=
  strT "Possible assignment in condition. Did you mean == instead of =?"

/-- Message of the unknown-command warning. -/
def unknownCmdMsg (fw : List Char) : List Char :=
  strT "Unknown command or keyword: \x27" ++ fw ++ strT "\x27"

/-- Source tag of all validator diagnostics. -/
def lspTag : List Char := strT "morpheus-lsp"

/-- Odd-quote-count warning for line `i`. -/
def quoteDiag (i : Nat) (line : List Char) : Diag :=
  ⟨.warning, ⟨(i : Int), 0, (i : Int), (line.length : Int)⟩, quoteMsg, lspTag⟩

/-- Assignment-in-condition warning for line `i`. -/
def condDiag (i : Nat) (line : List Char) : Diag :=
  ⟨.warning, ⟨(i : Int), 0, (i : Int), (line.length : Int)⟩, assignCondMsg, lspTag⟩

/-- Unknown-command warning spanning the first word of line `i`. -/
def unknownCmdDiag (i : Nat) (line fw : List Char) : Diag :=
  ⟨.warning, ⟨(i : Int), jsIndexOf fw line, (i : Int), jsIndexOf fw line + (fw.length : Int)⟩,
   unknownCmdMsg fw, lspTag⟩

/-- One iteration of the validator's scan pass (pass 1) for line `i`:
updates the carried state and emits this line's diagnostics in source
order (odd quotes, assignment-in-condition, unknown command). -/
def scanLine (cmds : List (List Char)) (i : Nat) (line : List Char) (st : ScanState) :
    ScanState × List Diag :=
  match lineEffect st.inBlockComment line with
  | (bc, none) => ({ st with inBlockComment := bc }, [])
  | (bc, some trimmedLine) =>
    let st1 : ScanState :=
      { st with
        inBlockComment := bc
        bracketBalance := st.bracketBalance + (line.count '\x7b' : Int) - (line.count '\x7d' : Int)
        parenBalance := st.parenBalance + (line.count '(' : Int) - (line.count ')' : Int)
        squareBalance := st.squareBalance + (line.count '[' : Int) - (line.count ']' : Int) }
    let content := stripLC trimmedLine
    let st2 : ScanState :=
      match labelExtract content with
      | some lbl => { st1 with definedLabels := addLabel st1.definedLabels lbl }
      | none => st1
    if matchesCaseLabel content then (st2, [])
    else
      let st3 : ScanState :=
        { st2 with threadCalls := st2.threadCalls ++ collectCalls i line trimmedLine }
      let quoteDiags : List Diag :=
        if (line.count '"') % 2 ≠ 0 then [quoteDiag i line] else []
      let condDiags : List Diag :=
        match condExtract trimmedLine with
        | some cond =>
          if hasAssignEq cond ∧ ¬ containsSub (strT "==") cond then [condDiag i line] else []
        | none => []
      let unknownDiags : List Diag :=
        match firstWordOf trimmedLine with
        | some fw =>
          if (strT ":").isSuffixOf content ∧ ¬ (strT "::").isSuffixOf content then []
          else if (strT ".").isPrefixOf (trimmedLine.drop fw.length) then []
          else if isCommandName cmds fw || isKeywordName fw then []
          else [unknownCmdDiag i line fw]
        | none => []
      (st3, quoteDiags ++ condDiags ++ unknownDiags)

/-- The scan pass over all lines from index `i`. -/
def scanLines (cmds : List (List Char)) : List (List Char) → Nat → ScanState →
    ScanState × List Diag
  | [], _, st => (st, [])
  | l :: rest, i, st =>
    let step := scanLine cmds i l st
    let next := scanLines cmds rest (i + 1) step.1
    (next.1, step.2 ++ next.2)

/-- Message of the label-not-found warning. -/
def labelNotFoundMsg (lbl : List Char) : List Char :=
  strT "Label \x27" ++ lbl ++
  strT "\x27 not found in this file. Is it defined in an external script?"

/-- Label-not-found warning at the recorded call-site span. -/
def labelNotFoundDiag (c : ThreadCall) : Diag :=
  ⟨.warning, ⟨(c.line : Int), c.char, (c.line : Int), c.char + (c.label.length : Int)⟩,
   labelNotFoundMsg c.label, lspTag⟩

/-- Pass 2: one warning per recorded call site whose target is neither a
defined label nor (case-insensitively) a command or keyword. -/
def threadCallDiags (cmds : List (List Char)) (labels : List (List Char))
    (calls : List ThreadCall) : List Diag :=
  calls.filterMap (fun c =>
    if labels.contains c.label then none
    else if isCommandName cmds c.label || isKeywordName c.label then none
    else some (labelNotFoundDiag c))

/-- Range anchored to the last line of the document. -/
def lastLineRng (lines : List (List Char)) : Rng :=
  ⟨((lines.length - 1 : Nat) : Int), 0, ((lines.length - 1 : Nat) : Int),
   ((lines.getLastD []).length : Int)⟩

/-- Message of the brace-imbalance error. -/
def braceMsg (b : Int) : List Char :=
  strT "Unbalanced braces: " ++
  (if b > 0 then strT "Missing " ++ natDec b.toNat ++ strT " closing \x7d"
   else strT "Missing " ++ natDec (-b).toNat ++ strT " opening \x7b")

/-- Message of the parenthesis-imbalance error. -/
def parenMsg (b : Int) : List Char :=
  strT "Unbalanced parentheses: " ++
  (if b > 0 then strT "Missing " ++ natDec b.toNat ++ strT " closing )"
   else strT "Missing " ++ natDec (-b).toNat ++ strT " opening (")

/-- Message of the square-bracket-imbalance error. -/
def squareMsg (b : Int) : List Char :=
  strT "Unbalanced square brackets: " ++
  (if b > 0 then strT "Missing " ++ natDec b.toNat ++ strT " closing ]"
   else strT "Missing " ++ natDec (-b).toNat ++ strT " opening [")

/-- Pass 3: one error per non-zero delimiter counter, anchored to the
last line. -/
def balanceDiags (st : ScanState) (lines : List (List Char)) : List Diag :=
  (if st.bracketBalance ≠ 0 then
    [⟨.error, lastLineRng lines, braceMsg st.bracketBalance, lspTag⟩] else []) ++
  (if st.parenBalance ≠ 0 then
    [⟨.error, lastLineRng lines, parenMsg st.parenBalance, lspTag⟩] else []) ++
  (if st.squareBalance ≠ 0 then
    [⟨.error, lastLineRng lines, squareMsg st.squareBalance, lspTag⟩] else [])

/-- The validator over the split line list: scan pass, thread-call
resolution pass, balance pass, diagnostics concatenated in that order. -/
def validateLines (cmds : List (List Char)) (lines : List (List Char)) : List Diag :=
  let scanned := scanLines cmds lines 0 initScan
  scanned.2 ++ threadCallDiags cmds scanned.1.definedLabels scanned.1.threadCalls ++
  balanceDiags scanned.1 lines

/-- `validateText`: split the document on /\r?\n/ and validate. -/
def validateText (cmds : List (List Char)) (text : List Char) : List Diag :=
  validateLines cmds (splitLinesCR text)

/-- The label table built by the scan pass for a document. -/
def labelTableOf (cmds : List (List Char)) (text : List Char) : List (List Char) :=
  ((scanLines cmds (splitLinesCR text) 0 initScan).1).definedLabels

/-- The thread-call list built by the scan pass for a document. -/
def threadCallsOf (cmds : List (List Char)) (text : List Char) : List ThreadCall :=
  ((scanLines cmds (splitLinesCR text) 0 initScan).1).threadCalls

/-- The effective comment-stripped contents of the document's lines: one
entry per line that survives block-comment and blank/comment skipping
(the stream over which labels are collected). -/
def effContents (bc : Bool) : List (List Char) → List (List Char)
  | [] => []
  | l :: rest =>
    match lineEffect bc l with
    | (bc2, none) => effContents bc2 rest
    | (bc2, some t) => stripLC t :: effContents bc2 rest

/-
Formatter embedding (src/unnamed/part_001, `connection.onDocumentFormatting`).
-/

/-- Formatting options: `insertSpaces` and `tabSize` from the LSP request. -/
structure FmtOptions where
  insertSpaces : Bool
  tabSize : Nat
deriving DecidableEq, Repr

/-- Formatter state threaded across lines.  The indent stack is modelled
with its top at the head (the source pushes/pops at the array's end). -/
structure FmtState where
  indentLevel : Nat
  indentStack : List Nat
  tempIndent : Nat
  lastLineWasLabel : Bool
deriving DecidableEq, Repr

/-- Initial formatter state. -/
def initFmt : FmtState := ⟨0, [], 0, false⟩

/-- Word boundary \b after a just-matched word: next character absent or
not a word character. -/
def wordBoundaryAfter (r : List Char) : Bool :=
  match r.head? with
  | none => true
  | some c => ¬ isWordChar c

/-- Test of /^\s*(case\b|default\s*:)/ on a line. -/
def isCaseOrDefault (line : List Char) : Bool :=
  let s := line.dropWhile isWS
  ((strT "case").isPrefixOf s && wordBoundaryAfter (s.drop 4)) ||
  ((strT "default").isPrefixOf s && ((s.drop 7).dropWhile isWS).head? = some ':')

/-- Tail allowed after a label's colon: /\s*(?:\/\/.*)?$/. -/
def labelTailOk (rest : List Char) : Bool :=
  let r := rest.dropWhile isWS
  r.isEmpty || ((strT "//").isPrefixOf r && noNL (r.drop 2))

/-- Lookahead (?!(case|default)\b) at the start of the candidate label. -/
def caseDefaultWordPrefix (s : List Char) : Bool :=
  ((strT "case").isPrefixOf s && wordBoundaryAfter (s.drop 4)) ||
  ((strT "default").isPrefixOf s && wordBoundaryAfter (s.drop 7))

/-- Test of /^\s*(?!(case|default)\b)[a-zA-Z0-9_]+.*:\s*(?:\/\/.*)?$/ on a
line: a label line has a leading word character, is not a case/default
clause, and contains a colon after which only whitespace and an optional
line comment remain. -/
def isLabelLine (line : List Char) : Bool :=
  let s := line.dropWhile isWS
  ¬ caseDefaultWordPrefix s &&
  (match s.head? with
   | some c => isWordChar c
   | none => false) &&
  (List.range s.length).any (fun k =>
    1 ≤ k && (strT ":").isPrefixOf (s.drop k) && noNL ((s.take k).drop 1) &&
    labelTailOk (s.drop (k + 1)))

/-- Test of /^\s*(if|while|for|else|elif)\b/ on the comment-stripped line. -/
def startsCtrlKeyword (l : List Char) : Bool :=
  let s := l.dropWhile isWS
  ((strT "if").isPrefixOf s && wordBoundaryAfter (s.drop 2)) ||
  ((strT "while").isPrefixOf s && wordBoundaryAfter (s.drop 5)) ||
  ((strT "for").isPrefixOf s && wordBoundaryAfter (s.drop 3)) ||
  ((strT "else").isPrefixOf s && wordBoundaryAfter (s.drop 4)) ||
  ((strT "elif").isPrefixOf s && wordBoundaryAfter (s.drop 4))

/-- JavaScript `line.replace(/\/\/.*$/, '')`: remove from the first `//`
after which no line terminator occurs, through the end. -/
def stripLineCommentJS (l : List Char) : List Char :=
  match (List.range l.length).find? (fun k =>
    (strT "//").isPrefixOf (l.drop k) && noNL (l.drop k)) with
  | some k => l.take k
  | none => l

/-- The dedent phase of one formatter iteration: case/default resync to
one above the stack top, closing-brace pop (with clamped decrement on an
empty stack, and temp-indent reset), and the `end` dedent (only the
spellings the regex (end|End|END) accepts, only with no pending temporary
indent and an empty stack, floored at zero).  Returns the level used to
render this line, the stack after any pop, and the temp counter. -/
def fmtLevelAfterDedent (st : FmtState) (line : List Char) : Nat × List Nat × Nat :=
  let level1 : Nat :=
    if isCaseOrDefault line then
      match st.indentStack with
      | top :: _ => top + 1
      | [] => st.indentLevel
    else st.indentLevel
  let afterBrace : Nat × List Nat × Nat :=
    if (strT "\x7d").isPrefixOf line then
      match st.indentStack with
      | top :: rest => (top, rest, 0)
      | [] => (level1 - 1, [], 0)
    else (level1, st.indentStack, st.tempIndent)
  if (line = strT "end" ∨ line = strT "End" ∨ line = strT "END") ∧
     afterBrace.2.2 = 0 ∧ afterBrace.2.1 = [] then
    (afterBrace.1 - 1, afterBrace.2.1, afterBrace.2.2)
  else afterBrace

/-- The rendering phase of one formatter iteration: label lines render at
zero indentation, bump the level for subsequent lines, clear the temp
counter and set the label flag; other lines render at the current level
(one shallower for a comment directly after a label; plus the temporary
indent unless the line opens with a brace) in repetitions of the indent
unit.  Returns the leading whitespace, the level and temp counter after
this line, and the new label flag. -/
def fmtRendered (opts : FmtOptions) (lastLabel : Bool) (line : List Char)
    (level3 temp2 : Nat) : List Char × Nat × Nat × Bool :=
  if isLabelLine line then ([], level3 + 1, 0, true)
  else
    let isComment := (strT "//").isPrefixOf line
    let effAndFlag : Nat × Bool :=
      if isComment ∧ lastLabel then (level3 - 1, lastLabel)
      else if ¬ isComment then (level3, false)
      else (level3, lastLabel)
    let eff : Nat :=
      if (strT "\x7b").isPrefixOf line then effAndFlag.1 else effAndFlag.1 + temp2
    (List.replicate (eff * (if opts.insertSpaces then opts.tabSize else 1))
       (if opts.insertSpaces then ' ' else '\t'),
     level3, temp2, effAndFlag.2)

/-- The state update for the next line, driven by the comment-stripped
line: a trailing opening brace pushes and indents; a case/default clause
indents; a brace-less control keyword arms the temporary indent; any
other statement consumes it. -/
def fmtPostState (line : List Char) (isCase : Bool) (level4 : Nat) (stack2 : List Nat)
    (temp4 : Nat) : Nat × List Nat × Nat :=
  let cleanLine := jsTrim (stripLineCommentJS line)
  if (strT "\x7b").isSuffixOf cleanLine then (level4 + 1, level4 :: stack2, 0)
  else if isCase then (level4 + 1, stack2, temp4)
  else if startsCtrlKeyword cleanLine then (level4, stack2, temp4 + 1)
  else (level4, stack2, 0)

/-- One iteration of the formatter loop: from the carried state and the
raw line, compute the next state and the line's replacement text (`none`
for a blank line, which is skipped entirely). -/
def fmtLine (opts : FmtOptions) (st : FmtState) (original : List Char) :
    FmtState × Option (List Char) :=
  let line := jsTrim original
  if line.isEmpty then (st, none)
  else
    let ded := fmtLevelAfterDedent st line
    let r := fmtRendered opts st.lastLineWasLabel line ded.1 ded.2.2
    let post := fmtPostState line (isCaseOrDefault line) r.2.1 ded.2.1 r.2.2.1
    (⟨post.1, post.2.1, post.2.2, r.2.2.2⟩, some (r.1 ++ jsTrimStart original))

/-- An indentation edit: the range covers one full original line. -/
structure FmtEdit where
  range : Rng
  newText : List Char
deriving DecidableEq, Repr

/-- The formatter loop from line index `i`: returns the emitted edits and
the per-line replacement texts (blank lines pass through unchanged). -/
def fmtGo (opts : FmtOptions) : List (List Char) → Nat → FmtState →
    List FmtEdit × List (List Char)
  | [], _, _ => ([], [])
  | l :: rest, i, st =>
    let step := fmtLine opts st l
    let next := fmtGo opts rest (i + 1) step.1
    match step.2 with
    | none => (next.1, l :: next.2)
    | some nt =>
      ((if nt ≠ l then
          [⟨⟨(i : Int), 0, (i : Int), (l.length : Int)⟩, nt⟩] else []) ++ next.1,
       nt :: next.2)

/-- The edits the formatter emits for a document. -/
def fmtEdits (opts : FmtOptions) (lines : List (List Char)) : List FmtEdit :=
  (fmtGo opts lines 0 initFmt).1

/-- The document that results from applying the formatter's edits: each
non-blank line replaced by its computed text. -/
def applyFmt (opts : FmtOptions) (lines : List (List Char)) : List (List Char) :=
  (fmtGo opts lines 0 initFmt).2

/-
External-checker report parsing (src/unnamed/part_001, `validateWithSexec`,
close handler).  The process plumbing is I/O; the report-to-diagnostics
translation is embedded as a pure function of the captured output and the
two file names the source compares against (`tempFileName`, `fileName`).
-/

/-- Carried parse state: the location line most recently seen. -/
structure SexecState where
  curFile : List Char
  curLine : Int
  curSev : Option Severity
deriving DecidableEq, Repr

/-- Initial sexec-parse state (`currentFile = ''`, `currentLine = 0`,
`currentSeverity = null`). -/
def initSexec : SexecState := ⟨[], 0, none⟩

/-- Digits to number (JavaScript `parseInt` on an all-digit string). -/
def natOfDigits (l : List Char) : Nat :=
  l.foldl (fun n c => n * 10 + (c.toNat - '0'.toNat)) 0

/-- Match of /^([EW]): \((.*), (\d+)\):$/ on the trimmed line: severity
letter, file name (greedy, so the split is at the last `, ` followed only
by digits) and 1-based line number. -/
def locParse (t : List Char) : Option (Char × List Char × Nat) :=
  match t with
  | c :: ':' :: ' ' :: '(' :: rest =>
    if (c = 'E' ∨ c = 'W') ∧ (strT "):").isSuffixOf rest then
      let body := rest.dropLast.dropLast
      (descRange body.length).findSome? (fun k =>
        let after := body.drop k
        if (strT ", ").isPrefixOf after ∧ body.drop (k + 2) ≠ [] ∧
           (body.drop (k + 2)).all Char.isDigit ∧ noNL (body.take k) then
          some (c, body.take k, natOfDigits (body.drop (k + 2)))
        else none)
    else none
  | _ => none

/-- JavaScript `replace(/^Script (Warning|file compile error|execution
failed)\s*:\s*/, '')`: strip the category phrase when present. -/
def stripScriptTag (m : List Char) : List Char :=
  if (strT "Script ").isPrefixOf m then
    let r := m.drop 7
    let tryPhrase : List Char → Option (List Char) := fun p =>
      if p.isPrefixOf r then
        let r2 := (r.drop p.length).dropWhile isWS
        if r2.head? = some ':' then some ((r2.drop 1).dropWhile isWS) else none
      else none
    match tryPhrase (strT "Warning") with
    | some x => x
    | none =>
      match tryPhrase (strT "file compile error") with
      | some x => x
      | none =>
        match tryPhrase (strT "execution failed") with
        | some x => x
        | none => m
  else m

/-- JavaScript `replace(/^Couldn't parse '.*'\s*:\s*/, '')`: the `.*` is
greedy, so the quote tried is the last one that is followed by optional
whitespace and a colon. -/
def stripCouldntTag (m : List Char) : List Char :=
  if (strT "Couldn\x27t parse \x27").isPrefixOf m then
    let r := m.drop 16
    match (descRange r.length).findSome? (fun k =>
      if (strT "\x27").isPrefixOf (r.drop k) ∧ noNL (r.take k) then
        let r2 := (r.drop (k + 1)).dropWhile isWS
        if r2.head? = some ':' then some ((r2.drop 1).dropWhile isWS) else none
      else none) with
    | some x => x
    | none => m
  else m

/-- The caret marker the source searches for (`'^~^~^'`). -/
def sexecMarker : List Char := strT "^~^~^"

/-- One iteration of the report-parsing loop over a raw output line. -/
def sexecStep (tempFileName fileName : List Char) (st : SexecState) (rawLine : List Char) :
    SexecState × List Diag :=
  let line := jsTrim rawLine
  match locParse line with
  | some (c, f, n) =>
    (⟨f, (n : Int) - 1, some (if c = 'E' then .error else .warning)⟩, [])
  | none =>
    match idxOfSub sexecMarker line with
    | some k =>
      let rest := line.drop (k + 5)
      let part1 :=
        match idxOfSub sexecMarker rest with
        | some k2 => rest.take k2
        | none => rest
      let message := jsTrim (stripCouldntTag (jsTrim (stripScriptTag (jsTrim part1))))
      match st.curSev with
      | some sv =>
        let ds : List Diag :=
          if st.curFile = tempFileName ∨ st.curFile = fileName then
            [⟨sv, ⟨st.curLine, 0, st.curLine, 2147483647⟩, message, strT "morfuse"⟩]
          else []
        ({ st with curSev := none }, ds)
      | none => (st, [])
    | none => (st, [])

/-- The report-parsing loop from a given state. -/
def sexecGo (tempFileName fileName : List Char) : List (List Char) → SexecState → List Diag
  | [], _ => []
  | l :: rest, st =>
    let step := sexecStep tempFileName fileName st l
    step.2 ++ sexecGo tempFileName fileName rest step.1

/-- Parse the external checker's captured output into diagnostics. -/
def parseSexecOutput (output tempFileName fileName : List Char) : List Diag :=
  sexecGo tempFileName fileName (splitNL output) initSexec

/-- Number of leading tab characters of a rendered line. -/
def leadingTabs (l : List Char) : Nat := (l.takeWhile (fun c => c = '\t')).length

/-
Theorems.
-/

/-- If a formatter run over a line list emits no edits, every computed
replacement equals its original line, so the output document is the
input document. -/
theorem fmtGo_no_edits_fix (opts : FmtOptions) :
    ∀ (ls : List (List Char)) (i : Nat) (st : FmtState),
      (fmtGo opts ls i st).1 = [] → (fmtGo opts ls i st).2 = ls := by
  intro ls
  induction ls with
  | nil => intro i st _; rfl
  | cons l rest ih =>
    intro i st h
    simp only [fmtGo] at h ⊢
    cases hstep : (fmtLine opts st l).2 with
    | none =>
      simp only [hstep] at h ⊢
      exact congrArg (l :: ·) (ih _ _ h)
    | some nt =>
      simp only [hstep] at h ⊢
      rcases List.append_eq_nil.mp h with ⟨h1, h2⟩
      have hnt : nt = l := by
        by_cases hc : nt = l
        · exact hc
        · simp [hc] at h1
      rw [hnt]
      exact congrArg (l :: ·) (ih _ _ h2)

/-- Claim C1: for a convergent input (a document on which a second
formatter pass emits zero edits), applying the formatter to the result of
formatting is the same document as formatting once:
format(format(text)) = format(text). -/
theorem c1_formatter_idempotent (opts : FmtOptions) (lines : List (List Char))
    (h : fmtEdits opts (applyFmt opts lines) = []) :
    applyFmt opts (applyFmt opts lines) = applyFmt opts lines :=
  fmtGo_no_edits_fix opts (applyFmt opts lines) 0 initFmt h

/-- Witness for C1 at the convergent document "foo:", "\tbar", "end". -/
theorem c1_witness :
    fmtEdits ⟨false, 4⟩ (applyFmt ⟨false, 4⟩ [strT "foo:", strT "\tbar", strT "end"]) = [] ∧
    applyFmt ⟨false, 4⟩ (applyFmt ⟨false, 4⟩ [strT "foo:", strT "\tbar", strT "end"]) =
      applyFmt ⟨false, 4⟩ [strT "foo:", strT "\tbar", strT "end"] :=
  ⟨by decide, c1_formatter_idempotent ⟨false, 4⟩ [strT "foo:", strT "\tbar", strT "end"] (by decide)⟩

/-- Claim C3 fails on the code: on the five-line document foo:, brace,
case 1:, bar, close-brace with a one-tab indent unit, the formatter
renders `bar` three tab levels deeper than `foo:`, not two (the label
adds a level, the brace adds a level, and the case clause adds a third). -/
theorem c3_counterexample :
    applyFmt ⟨false, 1⟩
        [strT "foo:", strT "\x7b", strT "case 1:", strT "bar", strT "\x7d"] =
      [strT "foo:", strT "\t\x7b", strT "\t\tcase 1:", strT "\t\t\tbar", strT "\t\x7d"] ∧
    leadingTabs (strT "\t\t\tbar") ≠ leadingTabs (strT "foo:") + 2 := by decide

/-- Claim C3 amended: on the five-line document the formatter renders
`bar` three tab levels deeper than `foo:` (one for the label, one for the
brace, one for the case clause), and the closing brace at the same level
as the line holding the opening brace. -/
theorem c3_brace_nesting :
    applyFmt ⟨false, 1⟩
        [strT "foo:", strT "\x7b", strT "case 1:", strT "bar", strT "\x7d"] =
      [strT "foo:", strT "\t\x7b", strT "\t\tcase 1:", strT "\t\t\tbar", strT "\t\x7d"] ∧
    leadingTabs (strT "\t\t\tbar") = leadingTabs (strT "foo:") + 3 ∧
    leadingTabs (strT "\t\x7d") = leadingTabs (strT "\t\x7b") := by decide

/-- Claim C4 fails on the code: `case 1:` and `default:` lines ARE added
to the label table (the case/default skip happens after label collection,
and label collection only requires content ending in a single colon with
a leading word character), recorded under their leading word runs `case`
and `default`. -/
theorem c4_counterexample :
    (labelTableOf [] (strT "default:")).contains (strT "default") = true ∧
    (labelTableOf [] (strT "case 1:")).contains (strT "case") = true := by decide

/-- Claim C6 fails on the code: the dedent test is the regex
(end|End|END), which is not case-insensitive; the spelling `eNd`
(which lower-cases to `end`) does not decrement the indent level even
with no pending temporary indent and an empty indent stack. -/
theorem c6_counterexample :
    toLowerL (jsTrim (strT "eNd")) = strT "end" ∧
    (fmtLine ⟨false, 1⟩ ⟨1, [], 0, false⟩ (strT "eNd")).1.indentLevel = 1 := by decide

/-- Claim C7 fails on the code: the heuristic regex [^=!<>]=[^=] only
excludes `=` `!` `<` `>` as the left neighbour of the `=`; on the right
it only excludes `=`.  The line `if (x =< 1)` has its `=` adjacent to `<`
on the right, yet the validator emits the assignment-in-condition
warning. -/
theorem c7_counterexample :
    validateText [] (strT "if (x =< 1)") = [condDiag 0 (strT "if (x =< 1)")] := by decide

/-- Claim C8 fails on the code: the parser searches message lines for the
literal marker caret-tilde-caret-tilde-caret, not the spec's
caret-tilde-tilde-tilde-caret, so the claimed report block produces no
diagnostic at all. -/
theorem c8_counterexample :
    parseSexecOutput
      (strT "W: (test.scr, 3):\nW: ^~~~^ Script Warning : message text")
      (strT ".tmp_test.scr") (strT "test.scr") = [] := by decide

/-- Claim C8 amended: with the marker the code actually searches for
(caret-tilde-caret-tilde-caret), the report block for (test.scr, 3)
yields exactly one Warning with message `message text` at zero-indexed
line 2; a block naming another file yields nothing, and unrecognized
lines are ignored. -/
theorem c8_report_parsing :
    parseSexecOutput
      (strT "W: (test.scr, 3):\nW: ^~^~^ Script Warning : message text")
      (strT ".tmp_test.scr") (strT "test.scr") =
      [⟨Severity.warning, ⟨2, 0, 2, 2147483647⟩, strT "message text", strT "morfuse"⟩] ∧
    parseSexecOutput
      (strT "W: (other.scr, 3):\nW: ^~^~^ Script Warning : message text")
      (strT ".tmp_test.scr") (strT "test.scr") = [] ∧
    parseSexecOutput (strT "garbled ~ output ^ with : stray lines")
      (strT ".tmp_test.scr") (strT "test.scr") = [] := by decide
/-- Helper for the amended C6: condition facts for the three spellings
accepted by the dedent regex. -/
theorem endSpellingFacts (l : List Char)
    (h : l = strT "end" ∨ l = strT "End" ∨ l = strT "END") :
    l.isEmpty = false ∧ isCaseOrDefault l = false ∧
    (strT "\x7d").isPrefixOf l = false ∧ isLabelLine l = false ∧
    (strT "//").isPrefixOf l = false ∧ (strT "\x7b").isPrefixOf l = false ∧
    jsTrim (stripLineCommentJS l) = l ∧ (strT "\x7b").isSuffixOf l = false ∧
    startsCtrlKeyword l = false := by
  rcases h with rfl | rfl | rfl <;>
    exact ⟨by decide, by decide, by decide, by decide, by decide, by decide,
           by decide, by decide, by decide⟩

/-- Helper for the amended C6: for a line whose trimmed form is a spelling
the dedent regex accepts, the resulting indent level decrements (floored
at zero) exactly when no temporary indent is pending and the indent stack
is empty. -/
theorem fmtLine_end_level (opts : FmtOptions) (st : FmtState) (orig l : List Char)
    (hl : jsTrim orig = l)
    (h3 : l = strT "end" ∨ l = strT "End" ∨ l = strT "END") :
    (fmtLine opts st orig).1.indentLevel =
      if st.tempIndent = 0 ∧ st.indentStack = [] then st.indentLevel - 1
      else st.indentLevel := by
  obtain ⟨h0, hc, hb, hlb, hcm, hbo, hcl, hsuf, hctl⟩ := endSpellingFacts l h3
  have hded : fmtLevelAfterDedent st l =
      (if st.tempIndent = 0 ∧ st.indentStack = [] then st.indentLevel - 1
       else st.indentLevel, st.indentStack, st.tempIndent) := by
    simp only [fmtLevelAfterDedent, hc, hb]
    simp [h3]
    split <;> simp
  have hr : ∀ (ll : Bool) (lvl tmp : Nat),
      (fmtRendered opts ll l lvl tmp).2.1 = lvl := by
    intro ll lvl tmp
    simp [fmtRendered, hlb]
  have hpost : ∀ (lvl : Nat) (stk : List Nat) (tmp : Nat),
      (fmtPostState l (isCaseOrDefault l) lvl stk tmp).1 = lvl := by
    intro lvl stk tmp
    simp only [fmtPostState, hcl, hsuf, hctl, hc, Bool.false_eq_true, if_false]
  simp only [fmtLine, hl, h0, Bool.false_eq_true, if_false, hded, hr, hpost]

/-- Claim C6 amended: a trimmed line spelled exactly `end`, `End` or
`END` (the only spellings the dedent regex accepts — not an arbitrary
case mixture) decrements the indent level by one with a floor of zero
when the temporary-indent counter is zero and the indent stack is empty;
otherwise it leaves the indent level unchanged. -/
theorem c6_end_dedent (opts : FmtOptions) (st : FmtState) (orig : List Char)
    (h : jsTrim orig = strT "end" ∨ jsTrim orig = strT "End" ∨ jsTrim orig = strT "END") :
    (fmtLine opts st orig).1.indentLevel =
      if st.tempIndent = 0 ∧ st.indentStack = [] then st.indentLevel - 1
      else st.indentLevel := by
  rcases h with h | h | h
  · exact fmtLine_end_level opts st orig _ h (Or.inl rfl)
  · exact fmtLine_end_level opts st orig _ h (Or.inr (Or.inl rfl))
  · exact fmtLine_end_level opts st orig _ h (Or.inr (Or.inr rfl))

/-- Witness for the amended C6: `  End  ` with indent level 2, no pending
temporary indent and an empty stack dedents to 1; `end` with a non-empty
indent stack leaves the level unchanged. -/
theorem c6_witness :
    (fmtLine ⟨false, 1⟩ ⟨2, [], 0, false⟩ (strT "  End  ")).1.indentLevel = 1 ∧
    (fmtLine ⟨false, 1⟩ ⟨2, [0], 0, false⟩ (strT "end")).1.indentLevel = 2 := by
  constructor
  · have h := c6_end_dedent ⟨false, 1⟩ ⟨2, [], 0, false⟩ (strT "  End  ")
      (Or.inr (Or.inl (by decide)))
    simpa using h
  · have h := c6_end_dedent ⟨false, 1⟩ ⟨2, [0], 0, false⟩ (strT "end")
      (Or.inl (by decide))
    simpa using h
/-- Dropping while a predicate holds ignores an all-satisfying prefix. -/
theorem dropWhile_append_all {α : Type} (p : α → Bool) :
    ∀ (xs ys : List α), xs.all p = true → (xs ++ ys).dropWhile p = ys.dropWhile p := by
  intro xs
  induction xs with
  | nil => simp
  | cons x xs ih =>
    intro ys h
    rw [List.all_cons, Bool.and_eq_true] at h
    simp [List.dropWhile_cons, h.1, ih _ h.2]

/-- dropWhile is idempotent. -/
theorem dropWhile_idem {α : Type} (p : α → Bool) (l : List α) :
    (l.dropWhile p).dropWhile p = l.dropWhile p := by
  induction l with
  | nil => rfl
  | cons x xs ih =>
    by_cases h : p x = true
    · simp [List.dropWhile_cons, h, ih]
    · simp [List.dropWhile_cons, h]

/-- A replicated satisfying element satisfies `all`. -/
theorem all_replicate {α : Type} (p : α → Bool) (c : α) (h : p c = true) (n : Nat) :
    (List.replicate n c).all p = true := by
  induction n with
  | zero => rfl
  | succ n ih => simp [List.replicate_succ, h, ih]

/-- The leading whitespace the formatter renders is all whitespace. -/
theorem fmtRendered_fst_ws (opts : FmtOptions) (ll : Bool) (line : List Char)
    (lvl tmp : Nat) : ((fmtRendered opts ll line lvl tmp).1).all isWS = true := by
  simp only [fmtRendered]
  split
  · rfl
  · apply all_replicate
    cases hS : opts.insertSpaces <;> simp [hS] <;> decide

/-- Every replacement text the formatter computes is some all-whitespace
indentation followed by the original line with its leading whitespace
removed. -/
theorem fmtLine_some_shape (opts : FmtOptions) (st : FmtState) (orig nt : List Char)
    (st2 : FmtState) (h : fmtLine opts st orig = (st2, some nt)) :
    ∃ ws, ws.all isWS = true ∧ nt = ws ++ jsTrimStart orig := by
  simp only [fmtLine] at h
  split at h
  · simp at h
  · rw [Prod.mk.injEq, Option.some.injEq] at h
    obtain ⟨-, h2⟩ := h
    exact ⟨_, fmtRendered_fst_ws opts st.lastLineWasLabel (jsTrim orig) _ _, h2.symm⟩

/-- Every edit the formatter emits from index `i` replaces a full
original line, altering only its leading whitespace. -/
theorem fmtGo_edit_shape (opts : FmtOptions) :
    ∀ (ls : List (List Char)) (i : Nat) (st : FmtState) (e : FmtEdit),
      e ∈ (fmtGo opts ls i st).1 →
      ∃ (j : Nat) (orig : List Char), ls[j]? = some orig ∧
        e.range = ⟨((i + j : Nat) : Int), 0, ((i + j : Nat) : Int), (orig.length : Int)⟩ ∧
        e.newText.dropWhile isWS = orig.dropWhile isWS ∧ e.newText ≠ orig := by
  intro ls
  induction ls with
  | nil => intro i st e h; simp [fmtGo] at h
  | cons l rest ih =>
    intro i st e h
    simp only [fmtGo] at h
    rcases hstep : fmtLine opts st l with ⟨stNext, nt?⟩
    rw [hstep] at h
    cases nt? with
    | none =>
      simp only at h
      obtain ⟨j, orig, hget, hrng, hdrop, hne⟩ := ih (i + 1) stNext e h
      refine ⟨j + 1, orig, by simpa using hget, ?_, hdrop, hne⟩
      have hij : i + 1 + j = i + (j + 1) := by omega
      rw [← hij]; exact hrng
    | some nt =>
      simp only at h
      rcases List.mem_append.mp h with hmem | hmem
      · by_cases hne : nt = l
        · simp [hne] at hmem
        · simp only [ne_eq, hne, not_false_iff, if_true, List.mem_singleton] at hmem
          subst hmem
          obtain ⟨ws, hws, hnt⟩ := fmtLine_some_shape opts st l nt stNext (by rw [hstep])
          refine ⟨0, l, by simp, by simp, ?_, hne⟩
          show nt.dropWhile isWS = l.dropWhile isWS
          rw [hnt]
          unfold jsTrimStart
          rw [dropWhile_append_all isWS ws _ hws, dropWhile_idem]
      · obtain ⟨j, orig, hget, hrng, hdrop, hne⟩ := ih (i + 1) stNext e hmem
        refine ⟨j + 1, orig, by simpa using hget, ?_, hdrop, hne⟩
        have hij : i + 1 + j = i + (j + 1) := by omega
        rw [← hij]; exact hrng

/-- Claim C9: every edit the formatter emits covers one full original
line (start character 0 through the line's length, on that line), its new
text agrees with the original line after removing the leading whitespace
of each (only leading whitespace is changed, all other content is kept
verbatim), and an edit is emitted only when the new text differs from the
original line. -/
theorem c9_leading_whitespace_only (opts : FmtOptions) (lines : List (List Char))
    (e : FmtEdit) (h : e ∈ fmtEdits opts lines) :
    ∃ (j : Nat) (orig : List Char), lines[j]? = some orig ∧
      e.range = ⟨((j : Nat) : Int), 0, ((j : Nat) : Int), (orig.length : Int)⟩ ∧
      e.newText.dropWhile isWS = orig.dropWhile isWS ∧ e.newText ≠ orig := by
  have hmain := fmtGo_edit_shape opts lines 0 initFmt e h
  simpa using hmain

/-- Witness for C9: on the document "foo:", "  bar" the formatter emits
the edit replacing line 1 by a tab-indented `bar`; the theorem applies to
this edit. -/
theorem c9_witness :
    (⟨⟨1, 0, 1, 5⟩, strT "\tbar"⟩ : FmtEdit) ∈
        fmtEdits ⟨false, 1⟩ [strT "foo:", strT "  bar"] ∧
    ∃ (j : Nat) (orig : List Char), [strT "foo:", strT "  bar"][j]? = some orig ∧
      (⟨⟨1, 0, 1, 5⟩, strT "\tbar"⟩ : FmtEdit).range =
        ⟨((j : Nat) : Int), 0, ((j : Nat) : Int), (orig.length : Int)⟩ ∧
      (strT "\tbar").dropWhile isWS = orig.dropWhile isWS ∧ (strT "\tbar") ≠ orig :=
  ⟨by decide,
   c9_leading_whitespace_only ⟨false, 1⟩ [strT "foo:", strT "  bar"]
     ⟨⟨1, 0, 1, 5⟩, strT "\tbar"⟩ (by decide)⟩
/-- Every call site the per-line collector records has a label matching
the identifier pattern. -/
theorem collectCallsAux_ident (i : Nat) (line : List Char) :
    ∀ (ws : List (List Char)) (c : ThreadCall),
      c ∈ collectCallsAux i line ws → matchesIdent c.label = true := by
  intro ws
  induction ws with
  | nil => intro c hc; simp [collectCallsAux] at hc
  | cons w rest ih =>
    intro c hc
    cases rest with
    | nil => simp [collectCallsAux] at hc
    | cons t rest2 =>
      simp only [collectCallsAux] at hc
      rcases List.mem_append.mp hc with hmem | hmem
      · split at hmem
        · split at hmem
          · split at hmem
            · rename_i hid
              rw [List.mem_singleton] at hmem
              subst hmem
              exact hid
            · simp at hmem
          · simp at hmem
        · simp at hmem
      · exact ih c hmem

/-- The thread-call list only grows across one scan step, and any call
added by the step has an identifier label. -/
theorem scanLine_calls (cmds : List (List Char)) (i : Nat) (line : List Char)
    (st : ScanState) (c : ThreadCall)
    (h : c ∈ ((scanLine cmds i line st).1).threadCalls) :
    c ∈ st.threadCalls ∨ matchesIdent c.label = true := by
  simp only [scanLine] at h
  rcases hle : lineEffect st.inBlockComment line with ⟨bc, t?⟩
  rw [hle] at h
  cases t? with
  | none => exact Or.inl h
  | some t =>
    simp only at h
    split at h
    · rename_i hlbl
      cases hlbl2 : labelExtract (stripLC t) with
      | some lbl => rw [hlbl2] at h; split at h <;> exact Or.inl h
      | none => rw [hlbl2] at h; split at h <;> exact Or.inl h
    · rename_i hlbl
      cases hlbl2 : labelExtract (stripLC t) with
      | some lbl =>
        rw [hlbl2] at h
        rcases List.mem_append.mp h with hmem | hmem
        · exact Or.inl hmem
        · exact Or.inr (collectCallsAux_ident i line _ c hmem)
      | none =>
        rw [hlbl2] at h
        rcases List.mem_append.mp h with hmem | hmem
        · exact Or.inl hmem
        · exact Or.inr (collectCallsAux_ident i line _ c hmem)

/-- Across the whole scan, every recorded call has an identifier label
provided the initial state's calls do. -/
theorem scanLines_calls_ident (cmds : List (List Char)) :
    ∀ (ls : List (List Char)) (i : Nat) (st : ScanState),
      (∀ c ∈ st.threadCalls, matchesIdent c.label = true) →
      ∀ c ∈ ((scanLines cmds ls i st).1).threadCalls, matchesIdent c.label = true := by
  intro ls
  induction ls with
  | nil => intro i st hinit c hc; exact hinit c hc
  | cons l rest ih =>
    intro i st hinit c hc
    simp only [scanLines] at hc
    refine ih (i + 1) (scanLine cmds i l st).1 ?_ c hc
    intro c2 hc2
    rcases scanLine_calls cmds i l st c2 hc2 with hold | hnew
    · exact hinit c2 hold
    · exact hnew

/-- Claim C10: a thread/waitthread/exec call site is recorded only when
the token following the keyword, after stripping one trailing `;` or `,`,
matches the identifier pattern (letter or underscore, then letters,
digits or underscores); in particular a target starting with a digit or
containing another symbol is never recorded, so no label-not-found
diagnostic can ever be produced for it. -/
theorem c10_recorded_targets_ident (cmds : List (List Char)) (text : List Char)
    (c : ThreadCall) (h : c ∈ threadCallsOf cmds text) :
    matchesIdent c.label = true := by
  refine scanLines_calls_ident cmds (splitLinesCR text) 0 initScan ?_ c h
  intro c2 hc2
  simp [initScan] at hc2

/-- Witness for C10: the call recorded for `waitthread foo; bar` has the
cleaned identifier label `foo`. -/
theorem c10_witness :
    (⟨strT "foo", 0, 11⟩ : ThreadCall) ∈ threadCallsOf [] (strT "waitthread foo; bar") ∧
    matchesIdent (strT "foo") = true :=
  ⟨by decide,
   c10_recorded_targets_ident [] (strT "waitthread foo; bar") ⟨strT "foo", 0, 11⟩ (by decide)⟩
/-- Every diagnostic the scan pass emits for one line is a Warning whose
message is the quote message, the assignment-in-condition message, or an
unknown-command message. -/
theorem scanLine_diag_shape (cmds : List (List Char)) (i : Nat) (line : List Char)
    (st : ScanState) :
    ∀ d ∈ (scanLine cmds i line st).2,
      d.severity = Severity.warning ∧
      (d.message = quoteMsg ∨ d.message = assignCondMsg ∨
       ∃ fw, d.message = unknownCmdMsg fw) := by
  intro d hd
  simp only [scanLine] at hd
  rcases hle : lineEffect st.inBlockComment line with ⟨bc, t?⟩
  rw [hle] at hd
  cases t? with
  | none => simp at hd
  | some t =>
    simp only at hd
    split at hd
    · simp at hd
    · rcases List.mem_append.mp hd with hm | hu
      · rcases List.mem_append.mp hm with hq | hc2
        · split at hq
          · simp only [List.mem_singleton] at hq
            subst hq
            exact ⟨rfl, Or.inl rfl⟩
          · simp at hq
        · rcases hce : condExtract t with _ | cond
          · simp only [hce] at hc2; simp at hc2
          · simp only [hce] at hc2
            split at hc2
            · simp only [List.mem_singleton] at hc2
              subst hc2
              exact ⟨rfl, Or.inr (Or.inl rfl)⟩
            · simp at hc2
      · rcases hfw : firstWordOf t with _ | fw
        · simp only [hfw] at hu; simp at hu
        · simp only [hfw] at hu
          split at hu
          · simp at hu
          · split at hu
            · simp at hu
            · split at hu
              · simp at hu
              · simp only [List.mem_singleton] at hu
                subst hu
                exact ⟨rfl, Or.inr (Or.inr ⟨fw, rfl⟩)⟩

/-- Every diagnostic the whole scan pass emits is a Warning with one of
the three per-line message shapes. -/
theorem scanLines_diag_shape (cmds : List (List Char)) :
    ∀ (ls : List (List Char)) (i : Nat) (st : ScanState),
      ∀ d ∈ (scanLines cmds ls i st).2,
        d.severity = Severity.warning ∧
        (d.message = quoteMsg ∨ d.message = assignCondMsg ∨
         ∃ fw, d.message = unknownCmdMsg fw) := by
  intro ls
  induction ls with
  | nil => intro i st d hd; simp [scanLines] at hd
  | cons l rest ih =>
    intro i st d hd
    simp only [scanLines] at hd
    rcases List.mem_append.mp hd with hm | hm
    · exact scanLine_diag_shape cmds i l st d hm
    · exact ih (i + 1) _ d hm

/-- Every diagnostic of the thread-call resolution pass comes from a
recorded call whose target is neither a defined label nor a command nor a
keyword. -/
theorem threadCallDiags_shape (cmds labels : List (List Char)) (calls : List ThreadCall)
    (d : Diag) (h : d ∈ threadCallDiags cmds labels calls) :
    ∃ c, c ∈ calls ∧ labels.contains c.label = false ∧
      isCommandName cmds c.label = false ∧ isKeywordName c.label = false ∧
      d = labelNotFoundDiag c := by
  unfold threadCallDiags at h
  rw [List.mem_filterMap] at h
  obtain ⟨c, hc, hf⟩ := h
  refine ⟨c, hc, ?_⟩
  split at hf
  · simp at hf
  · split at hf
    · simp at hf
    · rename_i h1 h2
      rw [Option.some.injEq] at hf
      simp only [Bool.not_eq_true] at h1
      simp only [Bool.or_eq_true, not_or, Bool.not_eq_true] at h2
      exact ⟨h1, h2.1, h2.2, hf.symm⟩

/-- Every diagnostic of the balance pass is an Error anchored to the last
line, carrying one of the three imbalance messages. -/
theorem balanceDiags_shape (st : ScanState) (lines : List (List Char)) (d : Diag)
    (h : d ∈ balanceDiags st lines) :
    d.severity = Severity.error ∧ d.range = lastLineRng lines ∧
      (d.message = braceMsg st.bracketBalance ∨ d.message = parenMsg st.parenBalance ∨
       d.message = squareMsg st.squareBalance) := by
  unfold balanceDiags at h
  rcases List.mem_append.mp h with hm | hs
  · rcases List.mem_append.mp hm with hb | hp
    · split at hb
      · simp only [List.mem_singleton] at hb; subst hb; exact ⟨rfl, rfl, Or.inl rfl⟩
      · simp at hb
    · split at hp
      · simp only [List.mem_singleton] at hp; subst hp; exact ⟨rfl, rfl, Or.inr (Or.inl rfl)⟩
      · simp at hp
  · split at hs
    · simp only [List.mem_singleton] at hs; subst hs; exact ⟨rfl, rfl, Or.inr (Or.inr rfl)⟩
    · simp at hs
/-- A label-not-found message differs from the quote message. -/
theorem labelMsg_ne_quote (lbl : List Char) : labelNotFoundMsg lbl ≠ quoteMsg := by
  intro h
  have h0 : (labelNotFoundMsg lbl)[1]? = quoteMsg[1]? := by rw [h]
  rw [show (labelNotFoundMsg lbl)[1]? = some 'a' from rfl,
      show quoteMsg[1]? = some 'i' from rfl] at h0
  exact absurd h0 (by decide)

/-- A label-not-found message differs from the condition message. -/
theorem labelMsg_ne_assign (lbl : List Char) : labelNotFoundMsg lbl ≠ assignCondMsg := by
  intro h
  have h0 : (labelNotFoundMsg lbl)[0]? = assignCondMsg[0]? := by rw [h]
  rw [show (labelNotFoundMsg lbl)[0]? = some 'L' from rfl,
      show assignCondMsg[0]? = some 'P' from rfl] at h0
  exact absurd h0 (by decide)

/-- A label-not-found message differs from any unknown-command message. -/
theorem labelMsg_ne_unknown (lbl fw : List Char) :
    labelNotFoundMsg lbl ≠ unknownCmdMsg fw := by
  intro h
  have h0 : (labelNotFoundMsg lbl)[0]? = (unknownCmdMsg fw)[0]? := by rw [h]
  rw [show (labelNotFoundMsg lbl)[0]? = some 'L' from rfl,
      show (unknownCmdMsg fw)[0]? = some 'U' from rfl] at h0
  exact absurd h0 (by decide)

/-- A label-not-found message differs from any imbalance message. -/
theorem labelMsg_ne_balance (lbl : List Char) (b : Int) :
    labelNotFoundMsg lbl ≠ braceMsg b ∧ labelNotFoundMsg lbl ≠ parenMsg b ∧
    labelNotFoundMsg lbl ≠ squareMsg b := by
  refine ⟨fun h => ?_, fun h => ?_, fun h => ?_⟩
  · have h0 : (labelNotFoundMsg lbl)[0]? = (braceMsg b)[0]? := by rw [h]
    rw [show (labelNotFoundMsg lbl)[0]? = some 'L' from rfl,
        show (braceMsg b)[0]? = some 'U' from rfl] at h0
    exact absurd h0 (by decide)
  · have h0 : (labelNotFoundMsg lbl)[0]? = (parenMsg b)[0]? := by rw [h]
    rw [show (labelNotFoundMsg lbl)[0]? = some 'L' from rfl,
        show (parenMsg b)[0]? = some 'U' from rfl] at h0
    exact absurd h0 (by decide)
  · have h0 : (labelNotFoundMsg lbl)[0]? = (squareMsg b)[0]? := by rw [h]
    rw [show (labelNotFoundMsg lbl)[0]? = some 'L' from rfl,
        show (squareMsg b)[0]? = some 'U' from rfl] at h0
    exact absurd h0 (by decide)

/-- Claim C5: a recorded thread/waitthread/exec call site produces a
label-not-found Warning (at the recorded span, with the recorded label in
the message) if and only if its target label is absent from the label
table and is neither a known command (case-insensitively) nor a keyword. -/
theorem c5_label_resolution (cmds : List (List Char)) (text : List Char) (c : ThreadCall)
    (h : c ∈ threadCallsOf cmds text) :
    labelNotFoundDiag c ∈ validateText cmds text ↔
      ((labelTableOf cmds text).contains c.label = false ∧
       isCommandName cmds c.label = false ∧ isKeywordName c.label = false) := by
  constructor
  · intro hmem
    unfold validateText validateLines at hmem
    rcases List.mem_append.mp hmem with hm | h3
    · rcases List.mem_append.mp hm with h1 | h2
      · exfalso
        obtain ⟨-, hmsg⟩ := scanLines_diag_shape cmds _ 0 initScan _ h1
        rcases hmsg with hmsg | hmsg | ⟨fw, hmsg⟩
        · exact labelMsg_ne_quote c.label hmsg
        · exact labelMsg_ne_assign c.label hmsg
        · exact labelMsg_ne_unknown c.label fw hmsg
      · obtain ⟨c2, hc2, hcond1, hcond2, hcond3, heq⟩ := threadCallDiags_shape _ _ _ _ h2
        have hm2 : labelNotFoundMsg c.label = labelNotFoundMsg c2.label :=
          congrArg Diag.message heq
        unfold labelNotFoundMsg at hm2
        have hlbl : c.label = c2.label :=
          List.append_cancel_left (List.append_cancel_right hm2)
        unfold labelTableOf
        rw [hlbl]
        exact ⟨hcond1, hcond2, hcond3⟩
    · exfalso
      obtain ⟨-, -, hmsg⟩ := balanceDiags_shape _ _ _ h3
      rcases hmsg with hmsg | hmsg | hmsg
      · exact (labelMsg_ne_balance c.label _).1 hmsg
      · exact (labelMsg_ne_balance c.label _).2.1 hmsg
      · exact (labelMsg_ne_balance c.label _).2.2 hmsg
  · rintro ⟨h1, h2, h3⟩
    unfold labelTableOf at h1
    unfold threadCallsOf at h
    unfold validateText validateLines
    refine List.mem_append.mpr (Or.inl (List.mem_append.mpr (Or.inr ?_)))
    unfold threadCallDiags
    rw [List.mem_filterMap]
    refine ⟨c, h, ?_⟩
    simp [h1, h2, h3]
    intro hmem
    have hcontains : (scanLines cmds (splitLinesCR text) 0 initScan).1.definedLabels.contains
        c.label = true := List.elem_iff.mpr hmem
    rw [hcontains] at h1
    exact Bool.noConfusion h1

/-- Witness for C5: `thread missing_label` with an empty command table
records the call at column 7 and yields the label-not-found Warning. -/
theorem c5_witness :
    labelNotFoundDiag ⟨strT "missing_label", 0, 7⟩ ∈
      validateText [] (strT "thread missing_label") :=
  (c5_label_resolution [] (strT "thread missing_label") ⟨strT "missing_label", 0, 7⟩
    (by decide)).mpr (by decide)
/-- The balance-message prefix appears in brace messages. -/
theorem pref_braceMsg (b : Int) :
    (strT "Unbalanced braces").isPrefixOf (braceMsg b) = true := rfl

/-- The balance-message prefix does not appear in paren messages. -/
theorem pref_parenMsg (b : Int) :
    (strT "Unbalanced braces").isPrefixOf (parenMsg b) = false := rfl

/-- The balance-message prefix does not appear in square-bracket messages. -/
theorem pref_squareMsg (b : Int) :
    (strT "Unbalanced braces").isPrefixOf (squareMsg b) = false := rfl

/-- The balance-message prefix does not appear in the quote message. -/
theorem pref_quoteMsg : (strT "Unbalanced braces").isPrefixOf quoteMsg = false := rfl

/-- The balance-message prefix does not appear in the condition message. -/
theorem pref_assignMsg : (strT "Unbalanced braces").isPrefixOf assignCondMsg = false := rfl

/-- The balance-message prefix does not appear in unknown-command messages. -/
theorem pref_unknownMsg (fw : List Char) :
    (strT "Unbalanced braces").isPrefixOf (unknownCmdMsg fw) = false := rfl

/-- The balance-message prefix does not appear in label-not-found messages. -/
theorem pref_labelMsg (lbl : List Char) :
    (strT "Unbalanced braces").isPrefixOf (labelNotFoundMsg lbl) = false := rfl

/-- Claim C2: the Error-severity diagnostics of a validation run are
exactly the end-of-scan balance errors, one per non-zero delimiter
counter, anchored to the last line; in particular when the final brace
counter is N > 0 there is exactly one brace-imbalance error, anchored to
the last line, whose message states that N closing braces are missing. -/
theorem c2_balance_errors (cmds : List (List Char)) (text : List Char) :
    ((validateText cmds text).filter (fun d => decide (d.severity = Severity.error)) =
      balanceDiags (scanLines cmds (splitLinesCR text) 0 initScan).1 (splitLinesCR text)) ∧
    (∀ N : Int, 0 < N →
      (scanLines cmds (splitLinesCR text) 0 initScan).1.bracketBalance = N →
      (validateText cmds text).filter
          (fun d => (strT "Unbalanced braces").isPrefixOf d.message) =
        [⟨Severity.error, lastLineRng (splitLinesCR text), braceMsg N, lspTag⟩]) ∧
    (∀ N : Int, 0 < N →
      braceMsg N = strT "Unbalanced braces: Missing " ++ natDec N.toNat ++
        strT " closing \x7d") := by
  refine ⟨?_, ?_, ?_⟩
  · unfold validateText validateLines
    rw [List.filter_append, List.filter_append]
    rw [List.filter_eq_nil_iff.mpr (fun d hd => by
      have hsev := (scanLines_diag_shape cmds _ 0 initScan d hd).1
      simp [hsev])]
    rw [List.filter_eq_nil_iff.mpr (fun d hd => by
      obtain ⟨c2, -, -, -, -, heq⟩ := threadCallDiags_shape _ _ _ d hd
      subst heq
      simp [labelNotFoundDiag])]
    rw [List.filter_eq_self.mpr (fun d hd => by
      have hsev := (balanceDiags_shape _ _ d hd).1
      simp [hsev])]
    simp
  · intro N hN hB
    unfold validateText validateLines
    rw [List.filter_append, List.filter_append]
    rw [List.filter_eq_nil_iff.mpr (fun d hd => by
      obtain ⟨-, hmsg⟩ := scanLines_diag_shape cmds _ 0 initScan d hd
      rcases hmsg with hmsg | hmsg | ⟨fw, hmsg⟩ <;> rw [hmsg] <;>
        simp [pref_quoteMsg, pref_assignMsg, pref_unknownMsg])]
    rw [List.filter_eq_nil_iff.mpr (fun d hd => by
      obtain ⟨c2, -, -, -, -, heq⟩ := threadCallDiags_shape _ _ _ d hd
      subst heq
      simp [labelNotFoundDiag, pref_labelMsg])]
    unfold balanceDiags
    rw [hB, if_pos hN.ne']
    rw [List.filter_append, List.filter_append]
    split_ifs <;>
      simp [List.filter_cons, List.filter_nil, pref_braceMsg, pref_parenMsg, pref_squareMsg]
  · intro N hN
    unfold braceMsg
    rw [if_pos hN]
    rw [← List.append_assoc, ← List.append_assoc,
      show strT "Unbalanced braces: " ++ strT "Missing " =
        strT "Unbalanced braces: Missing " from by decide]

/-- Witness for C2: a document consisting of one opening brace produces
exactly one brace-imbalance error (missing 1 closing brace), anchored to
line 0. -/
theorem c2_witness :
    (validateText [] (strT "\x7b")).filter
        (fun d => (strT "Unbalanced braces").isPrefixOf d.message) =
      [⟨Severity.error, lastLineRng (splitLinesCR (strT "\x7b")), braceMsg 1, lspTag⟩] :=
  (c2_balance_errors [] (strT "\x7b")).2.1 1 (by decide) (by decide)
/-- Heads agree when one cons list is a Boolean prefix of another. -/
theorem isPrefixOf_cons_head (a b : Char) (as bs : List Char)
    (h : (a :: as).isPrefixOf (b :: bs) = true) : a = b := by
  rw [List.isPrefixOf_iff_prefix] at h
  obtain ⟨t, ht⟩ := h
  rw [List.cons_append] at ht
  exact (List.cons.injEq a (as ++ t) b bs ▸ ht).1

/-- Characterization of the /[^=!<>]=[^=]/ test: some position holds a
`=` whose left neighbour is none of `=` `!` `<` `>` and whose right
neighbour exists and is not `=`. -/
theorem hasAssignEq_iff (l : List Char) :
    hasAssignEq l = true ↔
      ∃ i, (∃ a, l[i]? = some a ∧ ¬ (a = '=' ∨ a = '!' ∨ a = '<' ∨ a = '>')) ∧
        l[i + 1]? = some '=' ∧ (∃ c, l[i + 2]? = some c ∧ c ≠ '=') := by
  induction l with
  | nil =>
    constructor
    · intro h
      rw [show hasAssignEq [] = false from rfl] at h
      exact Bool.noConfusion h
    · rintro ⟨i, ⟨a, ha, -⟩, -, -⟩
      rw [List.getElem?_nil] at ha
      exact Option.noConfusion ha
  | cons x tail ih =>
    cases tail with
    | nil =>
      constructor
      · intro h
        rw [show hasAssignEq [x] = false from rfl] at h
        exact Bool.noConfusion h
      · rintro ⟨i, -, h2, -⟩
        rw [List.getElem?_eq_none (by simp : ([x] : List Char).length ≤ i + 1)] at h2
        exact Option.noConfusion h2
    | cons y tail2 =>
      cases tail2 with
      | nil =>
        constructor
        · intro h
          rw [show hasAssignEq [x, y] = false from rfl] at h
          exact Bool.noConfusion h
        · rintro ⟨i, -, -, ⟨c, hc, -⟩⟩
          rw [List.getElem?_eq_none (by simp : ([x, y] : List Char).length ≤ i + 2)] at hc
          exact Option.noConfusion hc
      | cons z rest =>
        rw [show hasAssignEq (x :: y :: z :: rest) =
            ((¬ (x = '=' ∨ x = '!' ∨ x = '<' ∨ x = '>') ∧ y = '=' ∧ z ≠ '=' : Bool) ||
              hasAssignEq (y :: z :: rest)) from rfl]
        rw [Bool.or_eq_true, ih]
        constructor
        · rintro (h | ⟨i, ⟨a, ha, hna⟩, h2, ⟨c, hc, hnc⟩⟩)
          · rw [decide_eq_true_eq] at h
            exact ⟨0, ⟨x, by simp, h.1⟩, by simp [h.2.1], ⟨z, by simp, h.2.2⟩⟩
          · exact ⟨i + 1, ⟨a, by simpa using ha, hna⟩, by simpa using h2,
              ⟨c, by simpa using hc, hnc⟩⟩
        · rintro ⟨i, ⟨a, ha, hna⟩, h2, ⟨c, hc, hnc⟩⟩
          cases i with
          | zero =>
            left
            rw [decide_eq_true_eq]
            rw [show (x :: y :: z :: rest)[0]? = some x from by simp,
              Option.some.injEq] at ha
            rw [show (x :: y :: z :: rest)[0 + 1]? = some y from by simp,
              Option.some.injEq] at h2
            rw [show (x :: y :: z :: rest)[0 + 2]? = some z from by simp,
              Option.some.injEq] at hc
            subst ha
            subst hc
            exact ⟨hna, h2, hnc⟩
          | succ j =>
            right
            exact ⟨j, ⟨a, by simpa using ha, hna⟩, by simpa using h2,
              ⟨c, by simpa using hc, hnc⟩⟩

/-- Dropping leading satisfying elements from the reverse keeps a final
non-satisfying element as the reversed head. -/
theorem rev_dropWhile_last (p : Char → Bool) (c : Char) (hc : p c = false) :
    ∀ ys : List Char, ((ys ++ [c]).dropWhile p).reverse.head? = some c := by
  intro ys
  induction ys with
  | nil => simp [List.dropWhile_cons, hc]
  | cons y ys ih =>
    by_cases hy : p y = true
    · simpa [List.dropWhile_cons, hy] using ih
    · simp [List.dropWhile_cons, hy]

/-- jsTrim keeps a non-whitespace head. -/
theorem jsTrim_head (c : Char) (xs : List Char) (hc : isWS c = false) :
    (jsTrim (c :: xs)).head? = some c := by
  unfold jsTrim jsTrimStart jsTrimEnd
  rw [List.dropWhile_cons, hc]
  simp only [Bool.false_eq_true, if_false, List.reverse_cons]
  exact rev_dropWhile_last isWS c hc xs.reverse

/-- stripLC keeps a head that is not whitespace and not a slash. -/
theorem stripLC_head (c : Char) (xs : List Char) (hws : isWS c = false)
    (hsl : c ≠ '/') : (stripLC (c :: xs)).head? = some c := by
  unfold stripLC
  cases hidx : idxOfSub (strT "//") (c :: xs) with
  | none => rfl
  | some k =>
    cases k with
    | zero =>
      exfalso
      simp only [idxOfSub] at hidx
      split at hidx
      · rename_i hpre
        exact hsl (isPrefixOf_cons_head '/' c _ xs hpre).symm
      · simp at hidx
    | succ j =>
      show (jsTrim (List.take (j + 1) (c :: xs))).head? = some c
      rw [List.take_succ_cons]
      exact jsTrim_head c _ hws

/-- A successful condition extraction pins the lower-cased head of the
trimmed line to `i` or `w`. -/
theorem condExtract_head (t cond : List Char) (h : condExtract t = some cond) :
    ∃ c xs, t = c :: xs ∧ (Char.toLower c = 'i' ∨ Char.toLower c = 'w') := by
  simp only [condExtract] at h
  split at h
  · rename_i hpre
    cases t with
    | nil => exact absurd hpre (by decide)
    | cons c xs =>
      refine ⟨c, xs, rfl, Or.inl ?_⟩
      rw [show toLowerL (c :: xs) = Char.toLower c :: toLowerL xs from rfl] at hpre
      exact (isPrefixOf_cons_head 'i' (Char.toLower c) _ _ hpre).symm
  · split at h
    · rename_i hpre
      cases t with
      | nil => exact absurd hpre (by decide)
      | cons c xs =>
        refine ⟨c, xs, rfl, Or.inr ?_⟩
        rw [show toLowerL (c :: xs) = Char.toLower c :: toLowerL xs from rfl] at hpre
        exact (isPrefixOf_cons_head 'w' (Char.toLower c) _ _ hpre).symm
    · exact Option.noConfusion h

/-- A whitespace character is its own lower case. -/
theorem isWS_toLower (c : Char) (h : isWS c = true) : Char.toLower c = c := by
  rw [isWS] at h
  simp only [Bool.or_eq_true, decide_eq_true_eq] at h
  rcases h with ((((h | h) | h) | h) | h) | h <;> subst h <;> decide

/-- A line whose condition regex matches is never a case clause. -/
theorem condExtract_not_case (t cond : List Char) (h : condExtract t = some cond) :
    matchesCaseLabel (stripLC t) = false := by
  obtain ⟨c, xs, rfl, hlow⟩ := condExtract_head t cond h
  have hws : isWS c = false := by
    by_contra hws
    rw [Bool.not_eq_false] at hws
    have hfix := isWS_toLower c hws
    rw [hfix] at hlow
    rcases hlow with hlow | hlow <;> subst hlow <;> exact absurd hws (by decide)
  have hsl : c ≠ '/' := by
    intro hsl
    subst hsl
    rcases hlow with hlow | hlow <;> exact absurd hlow (by decide)
  by_contra hcase
  rw [Bool.not_eq_false, matchesCaseLabel, Bool.and_eq_true] at hcase
  obtain ⟨hpre, -⟩ := hcase
  have hhead := stripLC_head c xs hws hsl
  cases hsf : stripLC (c :: xs) with
  | nil => rw [hsf] at hhead; exact Option.noConfusion hhead
  | cons c2 ys =>
    rw [hsf] at hpre hhead
    rw [List.head?_cons, Option.some.injEq] at hhead
    have hc2 := isPrefixOf_cons_head 'c' c2 _ _ hpre
    subst hhead
    rw [← hc2] at hlow
    rcases hlow with hlow | hlow <;> exact absurd hlow (by decide)
/-- The condition message differs from the quote message. -/
theorem assignMsg_ne_quote : assignCondMsg ≠ quoteMsg := by decide

/-- The condition message differs from any unknown-command message. -/
theorem assignMsg_ne_unknown (fw : List Char) : assignCondMsg ≠ unknownCmdMsg fw := by
  intro h
  have h0 : assignCondMsg[0]? = (unknownCmdMsg fw)[0]? := by rw [h]
  rw [show assignCondMsg[0]? = some 'P' from rfl,
      show (unknownCmdMsg fw)[0]? = some 'U' from rfl] at h0
  exact absurd h0 (by decide)

/-- Claim C7 amended: for the per-line scan on an effective trimmed line,
the assignment-in-condition Warning is emitted exactly when the extracted
condition contains a `=` whose LEFT neighbour is none of `=` `!` `<` `>`
and whose RIGHT neighbour exists and is not `=` (the right neighbour MAY
be `<` or `>`), and the condition does not contain `==`. -/
theorem c7_assignment_in_condition (cmds : List (List Char)) (i : Nat)
    (line : List Char) (st : ScanState) (bc : Bool) (t : List Char)
    (hle : lineEffect st.inBlockComment line = (bc, some t)) :
    condDiag i line ∈ (scanLine cmds i line st).2 ↔
      ∃ cond, condExtract t = some cond ∧
        (∃ k, (∃ a, cond[k]? = some a ∧ ¬ (a = '=' ∨ a = '!' ∨ a = '<' ∨ a = '>')) ∧
          cond[k + 1]? = some '=' ∧ (∃ c, cond[k + 2]? = some c ∧ c ≠ '=')) ∧
        containsSub (strT "==") cond = false := by
  constructor
  · intro hmem
    simp only [scanLine, hle] at hmem
    split at hmem
    · simp at hmem
    · rcases List.mem_append.mp hmem with hm | hu
      · rcases List.mem_append.mp hm with hq | hc2
        · exfalso
          split at hq
          · simp only [List.mem_singleton] at hq
            exact assignMsg_ne_quote (congrArg Diag.message hq)
          · simp at hq
        · rcases hce : condExtract t with _ | cond
          · simp only [hce] at hc2; simp at hc2
          · simp only [hce] at hc2
            split at hc2
            · rename_i hcnd
              obtain ⟨hassign, hncont⟩ := hcnd
              rw [Bool.not_eq_true] at hncont
              exact ⟨cond, rfl, (hasAssignEq_iff cond).mp hassign, hncont⟩
            · simp at hc2
      · exfalso
        rcases hfw : firstWordOf t with _ | fw
        · simp only [hfw] at hu; simp at hu
        · simp only [hfw] at hu
          split at hu
          · simp at hu
          · split at hu
            · simp at hu
            · split at hu
              · simp at hu
              · simp only [List.mem_singleton] at hu
                exact assignMsg_ne_unknown fw (congrArg Diag.message hu)
  · rintro ⟨cond, hce, hex, hcont⟩
    have hcase := condExtract_not_case t cond hce
    simp only [scanLine, hle, hcase, Bool.false_eq_true, if_false]
    refine List.mem_append.mpr (Or.inl (List.mem_append.mpr (Or.inr ?_)))
    simp only [hce]
    rw [if_pos ⟨(hasAssignEq_iff cond).mpr hex, by rw [hcont]; exact Bool.noConfusion⟩]
    exact List.mem_singleton.mpr rfl

/-- Witness for the amended C7: the line `if (x = 1)` emits the warning. -/
theorem c7_witness :
    condDiag 0 (strT "if (x = 1)") ∈ (scanLine [] 0 (strT "if (x = 1)") initScan).2 := by
  refine (c7_assignment_in_condition [] 0 (strT "if (x = 1)") initScan false
    (strT "if (x = 1)") (by decide)).mpr ?_
  exact ⟨strT "x = 1", by decide,
    ⟨1, ⟨' ', by decide, by decide⟩, by decide, ⟨' ', by decide, by decide⟩⟩, by decide⟩
/-- Membership in a JavaScript-Set-style add. -/
theorem mem_addLabel (s : List (List Char)) (x y : List Char) :
    y ∈ addLabel s x ↔ y ∈ s ∨ y = x := by
  unfold addLabel
  split
  · rename_i hcon
    constructor
    · exact Or.inl
    · rintro (h | rfl)
      · exact h
      · exact List.elem_iff.mp hcon
  · simp

/-- The label table after one scan step: unchanged for skipped lines,
otherwise extended by the extracted label when there is one. -/
theorem scanLine_labels (cmds : List (List Char)) (i : Nat) (line : List Char)
    (st : ScanState) :
    ((scanLine cmds i line st).1).definedLabels =
      match (lineEffect st.inBlockComment line).2 with
      | none => st.definedLabels
      | some t =>
        match labelExtract (stripLC t) with
        | some lbl => addLabel st.definedLabels lbl
        | none => st.definedLabels := by
  simp only [scanLine]
  rcases hle : lineEffect st.inBlockComment line with ⟨bc, t?⟩
  cases t? with
  | none => simp
  | some t =>
    simp only
    cases hlbl : labelExtract (stripLC t) with
    | some lbl => split <;> simp [hlbl]
    | none => split <;> simp [hlbl]

/-- The carried block-comment flag after one scan step. -/
theorem scanLine_bc (cmds : List (List Char)) (i : Nat) (line : List Char)
    (st : ScanState) :
    ((scanLine cmds i line st).1).inBlockComment =
      (lineEffect st.inBlockComment line).1 := by
  simp only [scanLine]
  rcases hle : lineEffect st.inBlockComment line with ⟨bc, t?⟩
  cases t? with
  | none => simp
  | some t =>
    simp only
    cases hlbl : labelExtract (stripLC t) with
    | some lbl => split <;> simp [hlbl]
    | none => split <;> simp [hlbl]

/-- A label is in the scan's table exactly when some effective content
contributes it, or it was there initially. -/
theorem mem_scanLines_labels (cmds : List (List Char)) :
    ∀ (ls : List (List Char)) (i : Nat) (st : ScanState) (lbl : List Char),
      lbl ∈ ((scanLines cmds ls i st).1).definedLabels ↔
        lbl ∈ st.definedLabels ∨
          ∃ c, c ∈ effContents st.inBlockComment ls ∧ labelExtract c = some lbl := by
  intro ls
  induction ls with
  | nil => intro i st lbl; simp [scanLines, effContents]
  | cons l rest ih =>
    intro i st lbl
    simp only [scanLines]
    rw [ih]
    rw [scanLine_labels, scanLine_bc]
    simp only [effContents]
    rcases hle : lineEffect st.inBlockComment l with ⟨bc2, t?⟩
    cases t? with
    | none => simp
    | some t =>
      simp only
      cases hlbl : labelExtract (stripLC t) with
      | some lbl2 =>
        simp only [hlbl, mem_addLabel, List.mem_cons]
        constructor
        · rintro ((h | rfl) | ⟨c, hc, hcl⟩)
          · exact Or.inl h
          · exact Or.inr ⟨stripLC t, Or.inl rfl, by rw [hlbl]⟩
          · exact Or.inr ⟨c, Or.inr hc, hcl⟩
        · rintro (h | ⟨c, hc | hc, hcl⟩)
          · exact Or.inl (Or.inl h)
          · subst hc
            rw [hlbl, Option.some.injEq] at hcl
            exact Or.inl (Or.inr hcl.symm)
          · exact Or.inr ⟨c, hc, hcl⟩
      | none =>
        simp only [hlbl, List.mem_cons]
        constructor
        · rintro (h | ⟨c, hc, hcl⟩)
          · exact Or.inl h
          · exact Or.inr ⟨c, Or.inr hc, hcl⟩
        · rintro (h | ⟨c, hc | hc, hcl⟩)
          · exact Or.inl h
          · subst hc
            rw [hlbl] at hcl
            exact Option.noConfusion hcl
          · exact Or.inr ⟨c, hc, hcl⟩

/-- Claim C4 amended: the validator's label table records a name exactly
when some line that survives skipping (blank, line-comment, block-comment
lines) has comment-stripped trimmed content that ends in `:` but not `::`
and begins with a word character — the recorded name being the leading
run of word characters of that content.  No exception is made for
`case`/`default` clauses: `case 1:` records `case`, `default:` records
`default`, because the case/default skip runs after label collection. -/
theorem c4_label_table_characterization (cmds : List (List Char)) (text : List Char)
    (lbl : List Char) :
    lbl ∈ labelTableOf cmds text ↔
      ∃ content, content ∈ effContents false (splitLinesCR text) ∧
        labelExtract content = some lbl := by
  unfold labelTableOf
  rw [mem_scanLines_labels]
  simp [initScan]
